import Mathlib

/-
Shallow embedding of the x11-primary-switcher program (src/main.rs).

Strings are modelled as `List Char`; the multi-line texts handed to the
parser and to the config extractor are modelled as lists of lines, each a
`List Char` (Rust `str::lines`).  External effects (the xrandr query, the
swaymsg query, reading stdin) are injected as explicit arguments; the
mutation call `set_primary` is modelled by the `Option` result of each
mode's selection function: `some name` means the mutation is issued for
`name`, `none` means the mode exits with a hard failure before any
mutation.
-/

/-- A character of the connector-name class of the xrandr line regex,
`[A-Za-z0-9\-_.+:/]` (ASCII alphanumeric plus the listed punctuation). -/
def nameChar (c : Char) : Bool :=
  c.isAlphanum || c == '-' || c == '_' || c == '.' || c == '+' || c == ':' || c == '/'

/-- Whitespace as matched by the regex class `\s` and by Rust `trim`.
Only the ASCII whitespace characters are modelled; the Unicode additions
cannot occur in the connector names, keywords and config declarations the
program inspects. -/
def wsChar (c : Char) : Bool :=
  c == ' ' || c == '\t' || c == '\n' || c == '\r' || c == Char.ofNat 11 || c == Char.ofNat 12

/-- Whether the first list is a prefix of the second (Boolean starts-with
test on character lists). -/
def startsWithSeq : List Char → List Char → Bool
  | [], _ => true
  | _ :: _, [] => false
  | p :: ps, c :: cs => p == c && startsWithSeq ps cs

/-- Whether `pat` occurs contiguously inside `s` (Rust `str::contains`). -/
def containsSeq (pat : List Char) : List Char → Bool
  | [] => startsWithSeq pat []
  | c :: cs => startsWithSeq pat (c :: cs) || containsSeq pat cs

/-- Rust `str::trim`: drop whitespace from both ends. -/
def trimBoth (l : List Char) : List Char :=
  ((l.dropWhile wsChar).reverse.dropWhile wsChar).reverse

/- ----------------------- X11/xrandr helpers ----------------------- -/

/-- The `struct XOutput` of main.rs. -/
structure XOutput where
  name : List Char
  primary : Bool
  connected : Bool
deriving DecidableEq, Repr

/-- The test `line.contains(" primary ")` of `xrandr_list_outputs`. -/
def linePrimary (l : List Char) : Bool :=
  containsSeq " primary ".toList l

/-- Match of one xrandr line against
`^([A-Za-z0-9\-_.+:/]+)\s+(connected|disconnected)(?:\s+primary)?`,
returning the captured name, whether the status keyword was `connected`,
and the `" primary "` containment test.  The name class and `\s` are
disjoint, so the greedy take-while decomposition coincides with the
regex's backtracking semantics. -/
def parseOutputLine (l : List Char) : Option (List Char × Bool × Bool) :=
  let name := l.takeWhile nameChar
  let rest := l.dropWhile nameChar
  let ws := rest.takeWhile wsChar
  let body := rest.dropWhile wsChar
  if name.isEmpty || ws.isEmpty then none
  else if startsWithSeq "connected".toList body then some (name, true, linePrimary l)
  else if startsWithSeq "disconnected".toList body then some (name, false, linePrimary l)
  else none

/-- The function `xrandr_list_outputs`, with the raw query text already split into
lines: outputs are pushed in line order and only when the status keyword
was `connected`. -/
def xrandr_list_outputs (lines : List (List Char)) : List XOutput :=
  lines.filterMap fun l =>
    match parseOutputLine l with
    | some (n, conn, prim) => if conn then some ⟨n, prim, conn⟩ else none
    | none => none

/-- Loop body of `current_primary_index_name`: scan with an index
accumulator for the first output with `primary` set. -/
def current_primary_aux : Nat → List XOutput → Option Nat × Option (List Char)
  | _, [] => (none, none)
  | i, o :: os => if o.primary then (some i, some o.name) else current_primary_aux (i + 1) os

/-- The function `current_primary_index_name`: index and name of the first primary
output, or `(none, none)`. -/
def current_primary_index_name (outputs : List XOutput) : Option Nat × Option (List Char) :=
  current_primary_aux 0 outputs

/-- The value `usize::MAX` on the 64-bit targets the program is built for. -/
def usizeMax : Nat := 2 ^ 64 - 1

/-- The `next_idx` computation of auto-switch mode (main.rs line 84):
`current_idx.unwrap_or(usize::MAX).wrapping_add(1) % outputs.len()`. -/
def auto_next_index (outputs : List XOutput) : Nat :=
  (((current_primary_index_name outputs).fst.getD usizeMax + 1) % 2 ^ 64) % outputs.length

/-- The connector auto-switch mode hands to `set_primary`
(`outputs[next_idx].name`). -/
def auto_target (outputs : List XOutput) : Option (List Char) :=
  (outputs[auto_next_index outputs]?).map XOutput.name

/-- Lines 124-130 of main.rs: the existence check of default mode.  The
target is kept when some live output carries that name, otherwise the
first output's name is chosen. -/
def config_default_chosen (outputs : List XOutput) (target : List Char) : Option (List Char) :=
  if outputs.any (fun o => o.name == target) then some target
  else (outputs[0]?).map XOutput.name

/- ----------------------- Sway config helpers ---------------------- -/

/-- The start marker substring. -/
def start_pat : List Char := "Primary Monitor Start".toList

/-- The end marker substring. -/
def end_pat : List Char := "Primary Monitor End".toList

/-- The `line.trim_start().starts_with('#')` comment test. -/
def commented (l : List Char) : Bool :=
  match l.dropWhile wsChar with
  | '#' :: _ => true
  | _ => false

/-- The capture of `^\s*output\s+"([^"]+)"` on one line: optional leading
whitespace, the literal `output`, mandatory whitespace, then a double
quote, a non-empty run of non-quote characters (the value), and a closing
double quote. -/
def decl_value (l : List Char) : Option (List Char) :=
  let r1 := l.dropWhile wsChar
  if startsWithSeq "output".toList r1 then
    let r2 := r1.drop 6
    if (r2.takeWhile wsChar).isEmpty then none
    else
      match r2.dropWhile wsChar with
      | '"' :: r4 =>
        let v := r4.takeWhile (fun c => !(c == '"'))
        if v.isEmpty then none
        else
          match r4.dropWhile (fun c => !(c == '"')) with
          | '"' :: _ => some v
          | _ => none
      | _ => none
  else none

/-- The search `lines.iter().skip(start).position(p)` translated back to an absolute
index. -/
def find_from (p : List Char → Bool) (lines : List (List Char)) (start : Nat) : Option Nat :=
  ((lines.drop start).findIdx? p).map (start + ·)

/-- The block-discovery loop of `read_preferred_from_sway_config`: find a
line containing the start marker, then a line strictly after it containing
the end marker; record the pair and resume after the end line.  An
unmatched start marker stops the scan.  The fuel argument bounds the
iteration count; `lines.length + 1` is always enough because every
iteration advances the search position by at least two. -/
def collect_blocks_aux (lines : List (List Char)) : Nat → Nat → List (Nat × Nat)
  | _, 0 => []
  | search_from, fuel + 1 =>
    match find_from (containsSeq start_pat) lines search_from with
    | none => []
    | some s =>
      match find_from (containsSeq end_pat) lines (s + 1) with
      | none => []
      | some e => (s, e) :: collect_blocks_aux lines (e + 1) fuel

/-- All marker-delimited blocks of the file, in order, as index pairs. -/
def collect_blocks (lines : List (List Char)) : List (Nat × Nat) :=
  collect_blocks_aux lines 0 (lines.length + 1)

/-- The slice `lines[start_idx..=end_idx]` scanned for one block: the end
marker line is included. -/
def block_slice (lines : List (List Char)) (s e : Nat) : List (List Char) :=
  (lines.drop s).take (e + 1 - s)

/-- Per-block scan: skip commented lines, return the first declaration
capture. -/
def scan_block_lines : List (List Char) → Option (List Char)
  | [] => none
  | l :: ls =>
    if commented l then scan_block_lines ls
    else
      match decl_value l with
      | some v => some v
      | none => scan_block_lines ls

/-- Scan the blocks in order; the first block yielding a value wins. -/
def scan_blocks (lines : List (List Char)) : List (Nat × Nat) → Option (List Char)
  | [] => none
  | (s, e) :: bs =>
    match scan_block_lines (block_slice lines s e) with
    | some v => some v
    | none => scan_blocks lines bs

/-- The function `read_preferred_from_sway_config` on an already-read and line-split
file content (an unreadable file yields absence one level up). -/
def read_preferred_from_sway_config (lines : List (List Char)) : Option (List Char) :=
  scan_blocks lines (collect_blocks lines)

/- ----------------- Map Sway "nice" to connector name -------------- -/

/-- A swaymsg output record.  The lookup code reads each JSON field with
`unwrap_or("")`, so an absent field is the empty string. -/
structure SwayOutput where
  name : List Char
  make : List Char
  model : List Char
  serial : List Char
  description : List Char
deriving DecidableEq, Repr

/-- The `format!("{} {} {}", make, model, serial).trim()` combination. -/
def record_combo (r : SwayOutput) : List Char :=
  trimBoth (r.make ++ ' ' :: r.model ++ ' ' :: r.serial)

/-- The first match rule: `!desc.is_empty() && desc == hint`. -/
def desc_matches (r : SwayOutput) (hint : List Char) : Bool :=
  !r.description.isEmpty && r.description == hint

/-- The fallback rule: `!combo.is_empty() && combo == hint`. -/
def combo_matches (r : SwayOutput) (hint : List Char) : Bool :=
  !(record_combo r).isEmpty && record_combo r == hint

/-- The record loop of `map_sway_hint_to_connector`: for each record in
order, description match first, then combo match. -/
def sway_lookup (hint : List Char) : List SwayOutput → Option (List Char)
  | [] => none
  | r :: rs =>
    if desc_matches r hint then some r.name
    else if combo_matches r hint then some r.name
    else sway_lookup hint rs

/-- The alternatives of the connector regex
`^(e?DP|HDMI|DVI|VGA|USB-C|LVDS|Virtual|X11)-`, each with the mandatory
dash appended. -/
def connector_families : List (List Char) :=
  ["eDP-".toList, "DP-".toList, "HDMI-".toList, "DVI-".toList, "VGA-".toList,
   "USB-C-".toList, "LVDS-".toList, "Virtual-".toList, "X11-".toList]

/-- The `is_match` test of the connector regex: the hint starts with a family token
followed by a dash. -/
def is_connector_style (hint : List Char) : Bool :=
  connector_families.any (fun p => startsWithSeq p hint)

/-- The function `map_sway_hint_to_connector` with the swaymsg fetch injected:
`fetched = none` models a failed or unparseable `swaymsg -t get_outputs`.
The second component records whether the compositor was queried at all
(the fetch sits after the connector-style early return in the source). -/
def map_sway_hint_to_connector (hint : List Char) (fetched : Option (List SwayOutput)) :
    Option (List Char) × Bool :=
  if is_connector_style hint then (some hint, false)
  else
    match fetched with
    | none => (none, true)
    | some rs => (sway_lookup hint rs, true)

/- --------------------------- Interactive -------------------------- -/

/-- Numeric value of an ASCII digit. -/
def digitVal (c : Char) : Nat := c.toNat - '0'.toNat

/-- Rust `str::parse::<usize>`: an optional leading `'+'`, then one or
more ASCII digits.  Overflow past `usize::MAX`, which also fails Rust's
parse, is not modelled: any such value is rejected by the range check of
the caller just the same. -/
def parse_usize (s : List Char) : Option Nat :=
  let s1 := match s with
    | '+' :: rest => rest
    | _ => s
  if s1.isEmpty then none
  else if s1.all Char.isDigit then some (s1.foldl (fun a c => a * 10 + digitVal c) 0)
  else none

/-- Interactive mode (main.rs lines 154-174) given the line read from
stdin: trim and parse it, accept only `1..=outputs.len()`, and hand
`outputs[n-1].name` to `set_primary`.  A `none` result is the hard
failure exit taken before any mutation. -/
def interactive_choice (outputs : List XOutput) (input : List Char) : Option (List Char) :=
  match parse_usize (trimBoth input) with
  | some n =>
    if 1 ≤ n ∧ n ≤ outputs.length then (outputs[n - 1]?).map XOutput.name else none
  | none => none

/- --------------------- Concrete sample inputs --------------------- -/

/-- Sample output list with the primary at index 0. -/
def c1_outs : List XOutput :=
  [⟨"DP-2".toList, true, true⟩, ⟨"HDMI-0".toList, false, true⟩]

/-- Sample xrandr query text. -/
def c2_lines : List (List Char) :=
  ["Screen 0: minimum 8 x 8, current 4480 x 1440".toList,
   "DP-2 connected primary 2560x1440+0+0 (normal left inverted) 597mm x 336mm".toList,
   "   2560x1440     59.95*+".toList,
   "DP-1 disconnected (normal left inverted right x axis y axis)".toList,
   "HDMI-0 connected 1920x1080+2560+0 (normal left inverted) 509mm x 286mm".toList]

/-- Sample output list for the default-mode fallback. -/
def c3_outs : List XOutput :=
  [⟨"DP-2".toList, true, true⟩, ⟨"HDMI-0".toList, false, true⟩]

/-- Sample config: a first block with only a commented declaration, then a
second block with an uncommented one. -/
def c4_lines : List (List Char) :=
  ["#! Primary Monitor Start !#".toList,
   "# output \"A\"".toList,
   "#! Primary Monitor End !#".toList,
   "#! Primary Monitor Start !#".toList,
   "output \"B\" resolution 2560x1440".toList,
   "#! Primary Monitor End !#".toList]

/-- A Sway record whose description is the hint `A B C`. -/
def c5_r1 : SwayOutput := ⟨"OUT1".toList, [], [], [], "A B C".toList⟩

/-- A Sway record whose make/model/serial combination is `A B C` while its
description is not. -/
def c5_r2 : SwayOutput := ⟨"OUT2".toList, "A".toList, "B".toList, "C".toList, "other".toList⟩

/-- A Sway record matching the hint `A B C` by neither rule. -/
def c5w_pre : List SwayOutput := [⟨"OUT0".toList, "Q".toList, [], [], "nomatch".toList⟩]

/-- Sample output list for the interactive-mode witness. -/
def c7_outs : List XOutput :=
  [⟨"DP-2".toList, true, true⟩, ⟨"HDMI-0".toList, false, true⟩]

/-- Sample output list with no primary set. -/
def c8_outs : List XOutput :=
  [⟨"DP-2".toList, false, true⟩, ⟨"HDMI-0".toList, false, true⟩]

/-- Config whose single block carries an uncommented declaration on the
end-marker line itself: the end marker sits in a trailing comment of the
`output` line. -/
def c9_lines : List (List Char) :=
  ["#! Primary Monitor Start !#".toList,
   "output \"X\" # Primary Monitor End".toList]

/-- Ordinary single-block config used for the inclusive-range witness. -/
def c9w_lines : List (List Char) :=
  ["#! Primary Monitor Start !#".toList,
   "output \"Y\"".toList,
   "#! Primary Monitor End !#".toList]

/-- Single-block config used for the non-empty-value witness. -/
def c10_lines : List (List Char) :=
  ["#! Primary Monitor Start !#".toList,
   "output \"Z\"".toList,
   "#! Primary Monitor End !#".toList]

/- --------------------------- Helper lemmas ------------------------ -/

/-- If no output is marked primary, the scan reports no index. -/
theorem current_primary_aux_none (os : List XOutput) :
    ∀ k, (∀ o ∈ os, o.primary = false) → (current_primary_aux k os).fst = none := by
  induction os with
  | nil => intro k _; rfl
  | cons o os ih =>
    intro k h
    have ho : o.primary = false := h o (List.mem_cons_self o os)
    simp only [current_primary_aux, ho, Bool.false_eq_true, if_false]
    exact ih (k + 1) (fun x hx => h x (List.mem_cons_of_mem o hx))

/-- If some output is primary, the scan reports an index holding a primary
output. -/
theorem current_primary_aux_finds (os : List XOutput) :
    ∀ (k j : Nat) (oj : XOutput), os[j]? = some oj → oj.primary = true →
      ∃ (j' : Nat) (oj' : XOutput), os[j']? = some oj' ∧ oj'.primary = true ∧
        (current_primary_aux k os).fst = some (k + j') := by
  induction os with
  | nil => intro k j oj h _; simp at h
  | cons o os ih =>
    intro k j oj hj hp
    by_cases ho : o.primary
    · exact ⟨0, o, by simp, ho, by simp [current_primary_aux, ho]⟩
    · cases j with
      | zero =>
        have : o = oj := by simpa using hj
        rw [this] at ho
        exact absurd hp ho
      | succ j =>
        have hj' : os[j]? = some oj := by simpa using hj
        obtain ⟨j', oj', h1, h2, h3⟩ := ih (k + 1) j oj hj' hp
        refine ⟨j' + 1, oj', by simpa using h1, h2, ?_⟩
        have harith : k + 1 + j' = k + (j' + 1) := by omega
        simp only [current_primary_aux, ho, Bool.false_eq_true, if_false]
        rw [h3, harith]

/-- C1: in Auto-Cycle mode, when the output at index i is the (unique)
current primary, the target is the output at index (i+1) mod N; with a
single output the same single entry is re-selected. -/
theorem C1_auto_cycle_next (outputs : List XOutput) (i : Nat) (oi : XOutput)
    (hi : outputs[i]? = some oi) (hoi : oi.primary = true)
    (huniq : ∀ j oj, outputs[j]? = some oj → oj.primary = true → j = i)
    (hlen : outputs.length < 2 ^ 64) :
    auto_target outputs = (outputs[(i + 1) % outputs.length]?).map XOutput.name ∧
    (outputs.length = 1 → auto_target outputs = some oi.name) := by
  obtain ⟨j', oj', h1, h2, h3⟩ := current_primary_aux_finds outputs 0 i oi hi hoi
  have hj'i : j' = i := huniq j' oj' h1 h2
  have hfst : (current_primary_index_name outputs).fst = some i := by
    unfold current_primary_index_name
    rw [h3, hj'i]
    simp
  have hilt : i < outputs.length := by
    by_contra hge
    rw [List.getElem?_eq_none (by omega)] at hi
    cases hi
  have hnext : auto_next_index outputs = (i + 1) % outputs.length := by
    unfold auto_next_index
    rw [hfst]
    simp only [Option.getD_some]
    rw [Nat.mod_eq_of_lt (by omega : i + 1 < 2 ^ 64)]
  constructor
  · unfold auto_target
    rw [hnext]
  · intro h1len
    have hi0 : i = 0 := by omega
    subst hi0
    unfold auto_target
    rw [hnext, h1len]
    rw [show (0 + 1) % 1 = 0 from rfl, hi]
    rfl

/-- C1 witness: a two-output set with the primary at index 0. -/
theorem C1_auto_cycle_next_witness :
    c1_outs[0]? = some ⟨"DP-2".toList, true, true⟩ ∧
    c1_outs.length < 2 ^ 64 ∧
    auto_target c1_outs = (c1_outs[(0 + 1) % c1_outs.length]?).map XOutput.name := by
  refine ⟨by decide, by norm_num [c1_outs], ?_⟩
  refine (C1_auto_cycle_next c1_outs 0 ⟨"DP-2".toList, true, true⟩ (by decide) (by decide)
    ?_ (by norm_num [c1_outs])).1
  intro j oj hj hp
  match j with
  | 0 => rfl
  | 1 =>
    have hoj : oj = ⟨"HDMI-0".toList, false, true⟩ := by
      have h := hj
      rw [show c1_outs[1]? = some ⟨"HDMI-0".toList, false, true⟩ from rfl] at h
      exact (Option.some.inj h).symm
    rw [hoj] at hp
    exact absurd hp (by decide)
  | (n + 2) => simp [c1_outs] at hj

/-- C8: with no output marked primary, the wrapped computation lands on
index 0 and auto mode targets the first output. -/
theorem C8_no_primary_targets_first (outputs : List XOutput) (_hne : outputs ≠ [])
    (hnp : ∀ o ∈ outputs, o.primary = false) :
    auto_next_index outputs = 0 ∧
    auto_target outputs = (outputs[0]?).map XOutput.name := by
  have hfst : (current_primary_index_name outputs).fst = none :=
    current_primary_aux_none outputs 0 hnp
  have h0 : auto_next_index outputs = 0 := by
    unfold auto_next_index
    rw [hfst]
    simp only [Option.getD_none, usizeMax]
    norm_num
  refine ⟨h0, ?_⟩
  unfold auto_target
  rw [h0]

/-- C8 witness: a two-output set in which nothing is primary. -/
theorem C8_no_primary_targets_first_witness :
    auto_next_index c8_outs = 0 ∧
    auto_target c8_outs = (c8_outs[0]?).map XOutput.name :=
  C8_no_primary_targets_first c8_outs (by decide) (by decide)

/-- C2: every output the parser retains is connected, and comes from a
line whose matched connectivity keyword was `connected`. -/
theorem C2_only_connected (lines : List (List Char)) (o : XOutput)
    (ho : o ∈ xrandr_list_outputs lines) :
    o.connected = true ∧ ∃ l ∈ lines, parseOutputLine l = some (o.name, true, o.primary) := by
  unfold xrandr_list_outputs at ho
  rw [List.mem_filterMap] at ho
  obtain ⟨l, hl, hsome⟩ := ho
  rcases hpl : parseOutputLine l with _ | ⟨n, conn, prim⟩
  · rw [hpl] at hsome
    simp at hsome
  · rw [hpl] at hsome
    cases conn with
    | false => simp at hsome
    | true =>
      simp only [if_true] at hsome
      have hoeq : o = ⟨n, prim, true⟩ := (Option.some.inj hsome).symm
      subst hoeq
      exact ⟨rfl, l, hl, hpl⟩

/-- C2 witness: a five-line xrandr query containing one disconnected
output. -/
theorem C2_only_connected_witness :
    (⟨"DP-2".toList, true, true⟩ : XOutput).connected = true ∧
    ∃ l ∈ c2_lines,
      parseOutputLine l = some ("DP-2".toList, true, true) :=
  C2_only_connected c2_lines ⟨"DP-2".toList, true, true⟩ (by decide)

/-- C3: in Config-Default mode, a target name carried by no live output
leads to the first output's name, not a failure. -/
theorem C3_missing_target_falls_back (outputs : List XOutput) (target : List Char)
    (hne : outputs ≠ []) (habs : ∀ o ∈ outputs, o.name ≠ target) :
    ∃ o0, outputs[0]? = some o0 ∧ config_default_chosen outputs target = some o0.name := by
  cases outputs with
  | nil => exact absurd rfl hne
  | cons o os =>
    refine ⟨o, by simp, ?_⟩
    unfold config_default_chosen
    rw [if_neg]
    · simp
    · intro hany
      rw [List.any_eq_true] at hany
      obtain ⟨x, hx, hbeq⟩ := hany
      exact habs x hx (eq_of_beq hbeq)

/-- C3 witness: no output is named `DP-9`. -/
theorem C3_missing_target_falls_back_witness :
    ∃ o0, c3_outs[0]? = some o0 ∧
      config_default_chosen c3_outs "DP-9".toList = some o0.name :=
  C3_missing_target_falls_back c3_outs "DP-9".toList (by decide) (by decide)

/-- A block whose every line is commented or carries no declaration yields
nothing. -/
theorem scan_block_lines_none (ls : List (List Char))
    (h : ∀ l ∈ ls, commented l = true ∨ decl_value l = none) :
    scan_block_lines ls = none := by
  induction ls with
  | nil => rfl
  | cons l ls ih =>
    have hl := h l (List.mem_cons_self l ls)
    have hrest := ih (fun x hx => h x (List.mem_cons_of_mem l hx))
    rcases hl with hc | hd
    · simp [scan_block_lines, hc, hrest]
    · by_cases hc : commented l
      · simp [scan_block_lines, hc, hrest]
      · simp [scan_block_lines, hc, hd, hrest]

/-- The scan returns the capture of the first uncommented declaration
line. -/
theorem scan_block_lines_first (pre post : List (List Char)) (l v : List Char)
    (hpre : ∀ l' ∈ pre, commented l' = true ∨ decl_value l' = none)
    (hc : commented l = false) (hv : decl_value l = some v) :
    scan_block_lines (pre ++ l :: post) = some v := by
  induction pre with
  | nil => simp [scan_block_lines, hc, hv]
  | cons p ps ih =>
    have hp := hpre p (List.mem_cons_self p ps)
    have hrest := ih (fun x hx => hpre x (List.mem_cons_of_mem p hx))
    rcases hp with h1 | h1
    · simp [scan_block_lines, h1, hrest]
    · by_cases h2 : commented p
      · simp [scan_block_lines, h2, hrest]
      · simp [scan_block_lines, h2, h1, hrest]

/-- C4: with two discovered blocks, the first free of uncommented
declarations and the second holding one, the extractor returns the second
block's value. -/
theorem C4_second_block_wins (lines : List (List Char)) (s1 e1 s2 e2 : Nat)
    (rest : List (Nat × Nat)) (pre post : List (List Char)) (l v : List Char)
    (hb : collect_blocks lines = (s1, e1) :: (s2, e2) :: rest)
    (h1 : ∀ l' ∈ block_slice lines s1 e1, commented l' = true ∨ decl_value l' = none)
    (h2 : block_slice lines s2 e2 = pre ++ l :: post)
    (hpre : ∀ l' ∈ pre, commented l' = true ∨ decl_value l' = none)
    (hl : commented l = false) (hv : decl_value l = some v) :
    read_preferred_from_sway_config lines = some v := by
  unfold read_preferred_from_sway_config
  rw [hb]
  have hs1 : scan_block_lines (block_slice lines s1 e1) = none := scan_block_lines_none _ h1
  have hs2 : scan_block_lines (block_slice lines s2 e2) = some v := by
    rw [h2]
    exact scan_block_lines_first pre post l v hpre hl hv
  simp [scan_blocks, hs1, hs2]

/-- C4 witness: a six-line config with a commented first block and an
uncommented second block. -/
theorem C4_second_block_wins_witness :
    read_preferred_from_sway_config c4_lines = some "B".toList := by
  refine C4_second_block_wins c4_lines 0 2 3 5 []
    ["#! Primary Monitor Start !#".toList]
    ["#! Primary Monitor End !#".toList]
    ("output \"B\" resolution 2560x1440".toList) ("B".toList)
    (by decide) (by decide) (by decide) (by decide) (by decide) (by decide)

/-- Any value returned by the per-block scan sits at some index of the
scanned slice, on an uncommented declaration line. -/
theorem scan_block_lines_some (ls : List (List Char)) (v : List Char)
    (h : scan_block_lines ls = some v) :
    ∃ (j : Nat) (l : List Char),
      ls[j]? = some l ∧ commented l = false ∧ decl_value l = some v := by
  induction ls with
  | nil => simp [scan_block_lines] at h
  | cons l ls ih =>
    by_cases hc : commented l
    · simp only [scan_block_lines, hc, if_true] at h
      obtain ⟨j, l', h1, h2, h3⟩ := ih h
      exact ⟨j + 1, l', by simpa using h1, h2, h3⟩
    · rcases hd : decl_value l with _ | v'
      · simp only [scan_block_lines, hc, if_false, hd] at h
        obtain ⟨j, l', h1, h2, h3⟩ := ih h
        exact ⟨j + 1, l', by simpa using h1, h2, h3⟩
      · simp only [scan_block_lines, hc, if_false, hd] at h
        have hv : v' = v := Option.some.inj h
        exact ⟨0, l, by simp, Bool.eq_false_iff.mpr hc, by rw [hd, hv]⟩

/-- Any value returned by the block iteration comes from one of the
blocks. -/
theorem scan_blocks_some (lines : List (List Char)) (bs : List (Nat × Nat)) (v : List Char)
    (h : scan_blocks lines bs = some v) :
    ∃ (s e : Nat), (s, e) ∈ bs ∧ scan_block_lines (block_slice lines s e) = some v := by
  induction bs with
  | nil => simp [scan_blocks] at h
  | cons b bs ih =>
    obtain ⟨s, e⟩ := b
    rcases hb : scan_block_lines (block_slice lines s e) with _ | v'
    · simp only [scan_blocks, hb] at h
      obtain ⟨s', e', h1, h2⟩ := ih h
      exact ⟨s', e', List.mem_cons_of_mem _ h1, h2⟩
    · simp only [scan_blocks, hb] at h
      have hv : v' = v := Option.some.inj h
      exact ⟨s, e, List.mem_cons_self _ _, by rw [hb, hv]⟩

/-- An index into a block slice maps back to an absolute line index at or
before the end line. -/
theorem block_slice_getElem (lines : List (List Char)) (s e j : Nat) (l : List Char)
    (h : (block_slice lines s e)[j]? = some l) :
    s + j ≤ e ∧ lines[s + j]? = some l := by
  unfold block_slice at h
  by_cases hj : j < e + 1 - s
  · rw [List.getElem?_take_of_lt hj, List.getElem?_drop] at h
    exact ⟨by omega, h⟩
  · rw [List.getElem?_take_eq_none (by omega)] at h
    cases h

/-- C9 counterexample: the block scan is inclusive of the end-marker
line.  In this two-line config the only block is (0, 1), line 1 is the
end-marker line, line 0 carries no declaration, and the extractor returns
the value sitting on line 1 itself — a value the claim says is never
returned. -/
theorem C9_counterexample :
    collect_blocks c9_lines = [(0, 1)] ∧
    containsSeq end_pat ("output \"X\" # Primary Monitor End".toList) = true ∧
    containsSeq end_pat ("#! Primary Monitor Start !#".toList) = false ∧
    c9_lines[1]? = some ("output \"X\" # Primary Monitor End".toList) ∧
    decl_value ("output \"X\" # Primary Monitor End".toList) = some "X".toList ∧
    commented ("output \"X\" # Primary Monitor End".toList) = false ∧
    decl_value ("#! Primary Monitor Start !#".toList) = none ∧
    read_preferred_from_sway_config c9_lines = some "X".toList := by
  decide

/-- C9 as amended: the block is the closed range [start, end]; whenever
the extractor returns a value, that value comes from an uncommented
declaration line at an index i with start <= i <= end for some discovered
block — the end-marker line included. -/
theorem C9_value_within_inclusive_block (lines : List (List Char)) (v : List Char)
    (h : read_preferred_from_sway_config lines = some v) :
    ∃ (s e i : Nat) (l : List Char), (s, e) ∈ collect_blocks lines ∧ s ≤ i ∧ i ≤ e ∧
      lines[i]? = some l ∧ commented l = false ∧ decl_value l = some v := by
  unfold read_preferred_from_sway_config at h
  obtain ⟨s, e, hmem, hscan⟩ := scan_blocks_some lines _ v h
  obtain ⟨j, l, hj, hc, hd⟩ := scan_block_lines_some _ v hscan
  obtain ⟨hle, hget⟩ := block_slice_getElem lines s e j l hj
  exact ⟨s, e, s + j, l, hmem, Nat.le_add_right s j, hle, hget, hc, hd⟩

/-- C9 witness: an ordinary one-block config. -/
theorem C9_value_within_inclusive_block_witness :
    ∃ (s e i : Nat) (l : List Char), (s, e) ∈ collect_blocks c9w_lines ∧ s ≤ i ∧ i ≤ e ∧
      c9w_lines[i]? = some l ∧ commented l = false ∧ decl_value l = some "Y".toList :=
  C9_value_within_inclusive_block c9w_lines "Y".toList (by decide)

/-- A matched declaration value is a non-empty run of non-quote
characters. -/
theorem decl_value_ne_nil : ∀ (l v : List Char), decl_value l = some v → v ≠ [] := by
  intro l v h
  unfold decl_value at h
  dsimp only at h
  split at h
  · split at h
    · exact absurd h (by simp)
    · split at h
      · split at h
        · exact absurd h (by simp)
        · split at h
          · rename_i hempty u tail heq
            have hv := Option.some.inj h
            intro hnil
            apply hempty
            rw [hv, hnil]
            rfl
          · exact absurd h (by simp)
      · exact absurd h (by simp)
  · exact absurd h (by simp)

/-- C10: whenever the extractor returns a preference string, the string is
non-empty. -/
theorem C10_value_nonempty (lines : List (List Char)) (v : List Char)
    (h : read_preferred_from_sway_config lines = some v) : v ≠ [] := by
  unfold read_preferred_from_sway_config at h
  obtain ⟨s, e, _, hscan⟩ := scan_blocks_some lines _ v h
  obtain ⟨j, l, _, _, hd⟩ := scan_block_lines_some _ v hscan
  exact decl_value_ne_nil l v hd

/-- C10 witness: a config whose block declares the value `Z`. -/
theorem C10_value_nonempty_witness : "Z".toList ≠ ([] : List Char) :=
  C10_value_nonempty c10_lines "Z".toList (by decide)

/-- Records matching by neither rule are skipped by the lookup. -/
theorem sway_lookup_append (hint : List Char) (pre rest : List SwayOutput)
    (hpre : ∀ r ∈ pre, desc_matches r hint = false ∧ combo_matches r hint = false) :
    sway_lookup hint (pre ++ rest) = sway_lookup hint rest := by
  induction pre with
  | nil => rfl
  | cons r rs ih =>
    have hr := hpre r (List.mem_cons_self r rs)
    have hrest := ih (fun x hx => hpre x (List.mem_cons_of_mem r hx))
    simp [sway_lookup, hr.1, hr.2, hrest]

/-- C5 counterexample: the record loop checks descriptions first and stops
at the first match.  Here the second record's make/model/serial
combination equals the hint while its description does not, yet the
resolver returns the first record's name, because that record's
description equals the hint. -/
theorem C5_counterexample :
    is_connector_style "A B C".toList = false ∧
    combo_matches c5_r2 "A B C".toList = true ∧
    c5_r2.description ≠ "A B C".toList ∧
    map_sway_hint_to_connector "A B C".toList (some [c5_r1, c5_r2]) =
      (some "OUT1".toList, true) ∧
    (map_sway_hint_to_connector "A B C".toList (some [c5_r1, c5_r2])).fst ≠
      some c5_r2.name := by
  decide

/-- C5 as amended: if the hint is not connector-style, no record before r
matches the hint by description or by non-empty combination, and r's
non-empty trimmed combination `make model serial` equals the hint while
r's description does not, then the resolver returns r's name (after
querying the compositor). -/
theorem C5_first_combo_match (hint : List Char) (pre post : List SwayOutput) (r : SwayOutput)
    (hstyle : is_connector_style hint = false)
    (hpre : ∀ r' ∈ pre, desc_matches r' hint = false ∧ combo_matches r' hint = false)
    (hcombo : combo_matches r hint = true)
    (hdesc : r.description ≠ hint) :
    map_sway_hint_to_connector hint (some (pre ++ r :: post)) = (some r.name, true) := by
  unfold map_sway_hint_to_connector
  rw [if_neg (by simp [hstyle])]
  show (sway_lookup hint (pre ++ r :: post), true) = (some r.name, true)
  rw [sway_lookup_append hint pre _ hpre]
  have hbeq : (r.description == hint) = false := beq_eq_false_iff_ne.mpr hdesc
  have hdm : desc_matches r hint = false := by
    unfold desc_matches
    rw [hbeq]
    simp
  simp [sway_lookup, hdm, hcombo]

/-- C5 witness: one non-matching record precedes the combo-matching one. -/
theorem C5_first_combo_match_witness :
    map_sway_hint_to_connector "A B C".toList (some (c5w_pre ++ c5_r2 :: [])) =
      (some c5_r2.name, true) :=
  C5_first_combo_match "A B C".toList c5w_pre [] c5_r2 (by decide) (by decide)
    (by decide) (by decide)

/-- C6: a connector-style hint is returned unchanged with no compositor
query, whatever a query would have returned. -/
theorem C6_connector_style_no_query (hint : List Char) (fetched : Option (List SwayOutput))
    (h : is_connector_style hint = true) :
    map_sway_hint_to_connector hint fetched = (some hint, false) := by
  unfold map_sway_hint_to_connector
  rw [if_pos h]

/-- C6 witness: the hint `DP-2` with a failed fetch. -/
theorem C6_connector_style_no_query_witness :
    map_sway_hint_to_connector "DP-2".toList none = (some "DP-2".toList, false) :=
  C6_connector_style_no_query "DP-2".toList none (by decide)

/-- C7: interactive input parsing to 0, parsing to a value above the
output count, or not parsing at all yields the hard-failure exit and no
mutation call. -/
theorem C7_invalid_selection (outputs : List XOutput) (input : List Char)
    (h : parse_usize (trimBoth input) = some 0 ∨
         (∃ n : Nat, parse_usize (trimBoth input) = some n ∧ outputs.length < n) ∨
         parse_usize (trimBoth input) = none) :
    interactive_choice outputs input = none := by
  unfold interactive_choice
  rcases h with h | ⟨n, h, hn⟩ | h
  · rw [h]
    simp
  · rw [h]
    simp only
    rw [if_neg (by omega)]
  · rw [h]

/-- C7 witness: the input `0` against a two-output set. -/
theorem C7_invalid_selection_witness : interactive_choice c7_outs "0".toList = none :=
  C7_invalid_selection c7_outs "0".toList (Or.inl (by decide))
